import Mathlib

/-!
Formal model of the concurrent reply-state engine of `app.py`
(a messenger auto-reply bot).

The Python code is shallowly embedded: the mutable `BotState` object
becomes an explicit state record threaded through the operations; file
and network I/O become explicit oracle parameters (`ReadResult` for the
outcome of reading `reply.txt`, a `writeOk` flag for the outcome of the
default-seed write, `NetOutcome` for the outcome of the outbound HTTP
request); timestamps (`time.time()`) become integers (discrete time).  Every method of
`BotState` and `MessengerAPI` relevant to the claims is translated
line by line.  The global lock held by `get_next_reply` and
`cleanup_inactive_users` makes each call atomic, so concurrent
executions are modelled as arbitrary serializations: sequences of
atomic calls (`runOps`).
-/

namespace AutoReplyBot

/-- ASCII whitespace recognised by Python `str.strip()`. -/
def isPySpace (c : Char) : Bool :=
  c = ' ' || c = '\t' || c = '\n' || c = '\r' || c = '\x0B' || c = '\x0C'

/-- Python `str.strip()`: drop leading and trailing whitespace. -/
def pyStrip (s : String) : String :=
  String.mk (((s.data.dropWhile isPySpace).reverse.dropWhile isPySpace).reverse)

/-- `[line.strip() for line in file if line.strip()]` (app.py line 73):
trim each line, drop the blank ones, keep the order. -/
def parseLines (lines : List String) : List String :=
  (lines.map pyStrip).filter (fun l => !(l == ""))

/-- The built-in default reply set of `create_default_replies`
(app.py lines 87-98), reproduced byte for byte (the source file
contains mojibake characters, written here as escapes). -/
def default_replies : List String :=
  ["Hello! Thanks for messaging us. We\x27ll get back to you soon! \xFC\xF2\xE4",
   "Thanks for reaching out! How can we help you today?",
   "We appreciate your message. Our team will respond shortly.",
   "Hello there! We\x27re here to help. What can we do for you?",
   "Thanks for contacting us! We value your inquiry.",
   "Hi! We\x27ve received your message and will respond as soon as possible.",
   "Hello! Thanks for getting in touch. We\x27re here to assist you.",
   "We appreciate you reaching out to us today! \xFC\xF4\xE5",
   "Thanks for your message! Our team is ready to help.",
   "Hello! We\x27re glad you contacted us. How may we assist you?"]

/-- The single fallback string installed when reading `reply.txt` fails
with a generic exception (app.py line 81). -/
def read_error_fallback : String :=
  "Thanks for messaging us! We\x27ll get back to you soon. \xFC\xF2\xE4"

/-- The hardcoded reply returned by `get_next_reply` when the cached
pool is empty (app.py line 115). -/
def empty_pool_fallback : String :=
  "Thanks for your message! \xFC\xF2\xE4"

/-- Per-sender state: `{"reply_index": ..., "last_active": ...}`
(app.py line 119). -/
structure UserEntry where
  reply_index : Nat
  last_active : ℤ
deriving DecidableEq

/-- The mutable fields of the `BotState` object (app.py lines 59-64).
The lock is modelled by treating each method call as atomic. -/
structure BotState where
  reply_index : Nat
  user_states : List (String × UserEntry)
  last_reply_reload : ℤ
  replies_cache : List String
deriving DecidableEq

/-- `BotState.__init__`: zeroed cursors, empty map, empty cache. -/
def initBotState : BotState :=
  { reply_index := 0, user_states := [], last_reply_reload := 0, replies_cache := [] }

/-- Outcome of `open("reply.txt").readlines()`: the list of lines on
success, `FileNotFoundError`, or any other exception. -/
inductive ReadResult
  | ok (lines : List String)
  | notFound
  | readErr
deriving DecidableEq

/-- Python dict lookup `m[k]` / `k in m` on the insertion-ordered map. -/
def dictGet (m : List (String × UserEntry)) (k : String) : Option UserEntry :=
  match m with
  | [] => none
  | (k', v) :: rest => if k' = k then some v else dictGet rest k

/-- Python dict assignment `m[k] = v`: update in place if present,
append otherwise (insertion order preserved). -/
def dictSet (m : List (String × UserEntry)) (k : String) (v : UserEntry) :
    List (String × UserEntry) :=
  match m with
  | [] => [(k, v)]
  | (k', v') :: rest =>
      if k' = k then (k, v) :: rest else (k', v') :: dictSet rest k v

/-- Result of `BotState.load_replies`: the returned list, the updated
state, and the content written back to `reply.txt` (if any). -/
structure LoadResult where
  replies : List String
  state : BotState
  written : Option (List String)
deriving DecidableEq

/-- `BotState.load_replies` (app.py lines 66-83), with
`create_default_replies` (lines 85-107) inlined in the `notFound`
branch.  `read` is the outcome of opening `reply.txt`; `writeOk` is the
outcome of the default-seed write.  Note that `last_reply_reload` is
refreshed only on a successful read, and that the `notFound` branch
installs the default list in the cache whether or not the write-back
succeeds. -/
def load_replies (read : ReadResult) (writeOk : Bool) (force_reload : Bool)
    (now : ℤ) (s : BotState) : LoadResult :=
  if force_reload = true ∨ now - s.last_reply_reload > 30 then
    match read with
    | .ok lines =>
        let c := parseLines lines
        ⟨c, { s with replies_cache := c, last_reply_reload := now }, none⟩
    | .notFound =>
        ⟨default_replies, { s with replies_cache := default_replies },
          if writeOk then some default_replies else none⟩
    | .readErr =>
        ⟨[read_error_fallback], { s with replies_cache := [read_error_fallback] }, none⟩
  else ⟨s.replies_cache, s, none⟩

/-- `BotState.get_next_reply` (app.py lines 109-129).  The whole body
runs under `self.lock`, hence is one atomic step.  The internal
`self.load_replies()` call is not forced; its I/O outcome is the
`read`/`writeOk` oracle. -/
def get_next_reply (uid : Option String) (now : ℤ) (read : ReadResult)
    (writeOk : Bool) (s : BotState) : String × BotState :=
  let lr := load_replies read writeOk false now s
  let replies := lr.replies
  let s1 := lr.state
  if replies.isEmpty then (empty_pool_fallback, s1)
  else
    match uid with
    | some u =>
        let e := (dictGet s1.user_states u).getD ⟨0, now⟩
        (replies.getD (e.reply_index % replies.length) "",
         { s1 with user_states := dictSet s1.user_states u ⟨e.reply_index + 1, now⟩ })
    | none =>
        (replies.getD (s1.reply_index % replies.length) "",
         { s1 with reply_index := s1.reply_index + 1 })

/-- Staleness test of `cleanup_inactive_users`:
`current_time - state["last_active"] > 3600` (app.py line 139). -/
def isStale (now : ℤ) (e : UserEntry) : Bool :=
  decide (now - e.last_active > 3600)

/-- `BotState.cleanup_inactive_users` (app.py lines 131-146): delete
every entry whose `last_active` is more than 3600 s in the past.  The
Python function has no `return` statement — it only logs the eviction
count — so the second component (the returned value) is always `none`. -/
def cleanup_inactive_users (now : ℤ) (s : BotState) : BotState × Option Nat :=
  ({ s with user_states := s.user_states.filter (fun p => !(isStale now p.2)) }, none)

/-- The eviction count that `cleanup_inactive_users` logs
(`len(inactive_users)`, app.py line 146). -/
def cleanup_removed_count (now : ℤ) (s : BotState) : Nat :=
  (s.user_states.filter (fun p => isStale now p.2)).length

/-- Truncation in `MessengerAPI.send_message` (app.py lines 164-166):
`if len(text) > 2000: text = text[:1997] + "..."`. -/
def truncate (text : String) : String :=
  if text.length > 2000 then String.mk (text.data.take 1997) ++ "..." else text

/-- Python falsiness of `config.page_access_token`
(`if not config.page_access_token`, app.py line 156): absent or empty. -/
def tokenFalsy (token : Option String) : Bool :=
  match token with
  | none => true
  | some s => s == ""

/-- Outcome of the outbound `requests.post`: a response with a status
code, a timeout, a `RequestException`, or any other exception. -/
inductive NetOutcome
  | response (status : Nat)
  | timeout
  | requestError
  | otherError
deriving DecidableEq

/-- Observable result of `send_message`: the body text of the issued
request (`none` when no request was issued) and the returned boolean. -/
structure SendOutcome where
  requested : Option String
  ok : Bool
deriving DecidableEq

/-- `MessengerAPI.send_message` (app.py lines 153-202).  Fails closed
when the token is falsy; otherwise truncates and issues one request;
returns `true` exactly on status 200; every exception branch (timeout,
request error, other — including the nested bare `except` around the
error-body parse) returns `false`. -/
def send_message (token : Option String) (text : String) (net : NetOutcome) :
    SendOutcome :=
  if tokenFalsy token then ⟨none, false⟩
  else
    let t := truncate text
    match net with
    | .response code => ⟨some t, code == 200⟩
    | .timeout => ⟨some t, false⟩
    | .requestError => ⟨some t, false⟩
    | .otherError => ⟨some t, false⟩

/-- One atomic `get_next_reply` call in a serialization: the sender id
(`none` for the global-cursor path), the call time, and the I/O oracle
of the embedded `load_replies`. -/
structure OpCall where
  uid : Option String
  now : ℤ
  read : ReadResult
  writeOk : Bool
deriving DecidableEq

/-- The pre-modulo cursor value a `get_next_reply` call reads before
incrementing (`user_state["reply_index"]` at app.py line 122, or the
global `self.reply_index` at line 126); `none` when the empty-pool
fallback fires and no cursor is read. -/
def usedCursor (uid : Option String) (now : ℤ) (read : ReadResult)
    (writeOk : Bool) (s : BotState) : Option Nat :=
  let lr := load_replies read writeOk false now s
  if lr.replies.isEmpty then none
  else
    match uid with
    | some u => some ((dictGet lr.state.user_states u).getD ⟨0, now⟩).reply_index
    | none => some lr.state.reply_index

/-- Run a serialization of atomic `get_next_reply` calls, recording for
each call the sender id, the pre-modulo cursor value the call used
(`none` when the empty-pool fallback fired), and the reply returned. -/
def runOps : List OpCall → BotState → List (Option String × Option Nat × String) × BotState
  | [], s => ([], s)
  | op :: rest, s =>
      let used := usedCursor op.uid op.now op.read op.writeOk s
      let step := get_next_reply op.uid op.now op.read op.writeOk s
      let tail := runOps rest step.2
      ((op.uid, used, step.1) :: tail.1, tail.2)

/-- The per-sender cursor as stored in the table (0 when absent —
a fresh entry is created with cursor 0). -/
def cursorOf (u : String) (s : BotState) : Nat :=
  match dictGet s.user_states u with
  | some e => e.reply_index
  | none => 0

/-- Number of calls for sender `u` in a serialization. -/
def countU (u : String) (ops : List OpCall) : Nat :=
  (ops.filter (fun op => op.uid == some u)).length

/-- A read outcome that cannot empty the pool: if it is a successful
read, the parsed line list is non-empty. -/
def GoodRead (r : ReadResult) : Prop :=
  ∀ lines, r = ReadResult.ok lines → parseLines lines ≠ []

/-- A read outcome that keeps the pool exactly `tmpl`: a successful
read whose parsed line list is `tmpl`. -/
def parsesTo (r : ReadResult) (tmpl : List String) : Prop :=
  match r with
  | .ok lines => parseLines lines = tmpl
  | _ => False

instance (r : ReadResult) (tmpl : List String) : Decidable (parsesTo r tmpl) :=
  match r with
  | .ok lines => inferInstanceAs (Decidable (parseLines lines = tmpl))
  | .notFound => inferInstanceAs (Decidable False)
  | .readErr => inferInstanceAs (Decidable False)

/-! ### Basic lemmas about the embedded operations -/

lemma parseLines_mem_ne {lines : List String} {l : String}
    (h : l ∈ parseLines lines) : l ≠ "" := by
  have h2 := (List.mem_filter.mp h).2
  simpa [beq_eq_false_iff_ne] using h2

lemma dictGet_dictSet_self (m : List (String × UserEntry)) (k : String) (v : UserEntry) :
    dictGet (dictSet m k v) k = some v := by
  induction m with
  | nil => simp [dictGet, dictSet]
  | cons p rest ih =>
      obtain ⟨k', v'⟩ := p
      by_cases h : k' = k <;> simp [dictGet, dictSet, h, ih]

lemma dictGet_dictSet_ne (m : List (String × UserEntry)) (k u : String) (v : UserEntry)
    (h : k ≠ u) : dictGet (dictSet m k v) u = dictGet m u := by
  induction m with
  | nil => simp [dictGet, dictSet, h]
  | cons p rest ih =>
      obtain ⟨k', v'⟩ := p
      by_cases hk : k' = k
      · subst hk
        simp [dictGet, dictSet, h]
      · simp [dictGet, dictSet, hk, ih]

lemma dictGet_filter_pos {m : List (String × UserEntry)} {u : String} {e : UserEntry}
    (q : String × UserEntry → Bool) (h : dictGet m u = some e) (hq : q (u, e) = true) :
    dictGet (m.filter q) u = some e := by
  induction m with
  | nil => simp [dictGet] at h
  | cons p rest ih =>
      obtain ⟨k, v⟩ := p
      by_cases hk : k = u
      · subst hk
        have hv : v = e := by simpa [dictGet] using h
        subst hv
        simp [List.filter_cons, hq, dictGet]
      · simp only [dictGet, if_neg hk] at h
        rw [List.filter_cons]
        split

        · simpa [dictGet, hk] using ih h
        · exact ih h

lemma dictGet_filter_none {m : List (String × UserEntry)} {u : String}
    (q : String × UserEntry → Bool) (h : dictGet m u = none) :
    dictGet (m.filter q) u = none := by
  induction m with
  | nil => simp [dictGet]
  | cons p rest ih =>
      obtain ⟨k, v⟩ := p
      by_cases hk : k = u
      · subst hk
        simp [dictGet] at h
      · simp only [dictGet, if_neg hk] at h
        rw [List.filter_cons]
        split
        · simpa [dictGet, hk] using ih h
        · exact ih h

lemma dictGet_eq_none_of_key_not_mem {m : List (String × UserEntry)} {u : String}
    (h : u ∉ m.map Prod.fst) : dictGet m u = none := by
  induction m with
  | nil => simp [dictGet]
  | cons p rest ih =>
      obtain ⟨k, v⟩ := p
      simp only [List.map_cons, List.mem_cons] at h
      push_neg at h
      have hk : ¬k = u := fun hk => h.1 hk.symm
      simp [dictGet, hk, ih h.2]

lemma dictGet_filter_neg {m : List (String × UserEntry)} {u : String} {e : UserEntry}
    (q : String × UserEntry → Bool) (hnd : (m.map Prod.fst).Nodup)
    (h : dictGet m u = some e) (hq : q (u, e) = false) :
    dictGet (m.filter q) u = none := by
  induction m with
  | nil => simp [dictGet] at h
  | cons p rest ih =>
      obtain ⟨k, v⟩ := p
      rw [List.map_cons, List.nodup_cons] at hnd
      by_cases hk : k = u
      · subst hk
        have hv : v = e := by simpa [dictGet] using h
        subst hv
        rw [List.filter_cons, if_neg (by simp [hq])]
        exact dictGet_filter_none q (dictGet_eq_none_of_key_not_mem hnd.1)
      · simp only [dictGet, if_neg hk] at h
        rw [List.filter_cons]
        split
        · simpa [dictGet, hk] using ih hnd.2 h
        · exact ih hnd.2 h

/-! ### Lemmas about `load_replies` -/

lemma load_replies_user_states (read : ReadResult) (writeOk force : Bool) (now : ℤ)
    (s : BotState) : (load_replies read writeOk force now s).state.user_states = s.user_states := by
  unfold load_replies
  split
  · cases read <;> rfl
  · rfl

lemma load_replies_reply_index (read : ReadResult) (writeOk force : Bool) (now : ℤ)
    (s : BotState) : (load_replies read writeOk force now s).state.reply_index = s.reply_index := by
  unfold load_replies
  split
  · cases read <;> rfl
  · rfl

lemma load_replies_cache_eq (read : ReadResult) (writeOk force : Bool) (now : ℤ)
    (s : BotState) :
    (load_replies read writeOk force now s).state.replies_cache
      = (load_replies read writeOk force now s).replies := by
  unfold load_replies
  split
  · cases read <;> rfl
  · rfl

lemma load_replies_ne_nil (read : ReadResult) (writeOk force : Bool) (now : ℤ)
    (s : BotState) (h1 : s.replies_cache ≠ []) (h2 : GoodRead read) :
    (load_replies read writeOk force now s).replies ≠ [] := by
  unfold load_replies
  split
  · cases read with
    | ok lines => simpa using h2 lines rfl
    | notFound => simp [default_replies]
    | readErr => simp
  · simpa using h1

lemma load_replies_of_parsesTo (read : ReadResult) (writeOk force : Bool) (now : ℤ)
    (s : BotState) {tmpl : List String}
    (hc : s.replies_cache = tmpl) (hp : parsesTo read tmpl) :
    (load_replies read writeOk force now s).replies = tmpl := by
  unfold load_replies
  split
  · cases read with
    | ok lines => simpa [parsesTo] using hp
    | notFound => exact absurd hp (by simp [parsesTo])
    | readErr => exact absurd hp (by simp [parsesTo])
  · simpa using hc

lemma parsesTo_goodRead {read : ReadResult} {tmpl : List String}
    (hne : tmpl ≠ []) (hp : parsesTo read tmpl) : GoodRead read := by
  cases read with
  | ok lines =>
      intro l hl
      cases hl
      simpa [parsesTo] using hp ▸ hne
  | notFound => exact absurd hp (by simp [parsesTo])
  | readErr => exact absurd hp (by simp [parsesTo])

lemma load_replies_elems_ne (read : ReadResult) (writeOk force : Bool) (now : ℤ)
    (s : BotState) (h : ∀ r ∈ s.replies_cache, r ≠ "") :
    ∀ r ∈ (load_replies read writeOk force now s).replies, r ≠ "" := by
  unfold load_replies
  split
  · cases read with
    | ok lines => exact fun r hr => parseLines_mem_ne (by simpa using hr)
    | notFound => exact fun r hr => (by decide : ∀ x ∈ default_replies, x ≠ "") r hr
    | readErr => exact fun r hr => (by decide : ∀ x ∈ [read_error_fallback], x ≠ "") r hr
  · exact fun r hr => h r (by simpa using hr)

/-! ### Lemmas about `get_next_reply` and serializations -/

lemma getD_mod_mem {l : List String} (h : l ≠ []) (i : Nat) :
    l.getD (i % l.length) "" ∈ l := by
  have hlt : i % l.length < l.length := Nat.mod_lt _ (List.length_pos.mpr h)
  rw [List.getD_eq_getElem l "" hlt]
  exact List.getElem_mem hlt

lemma get_next_reply_step (u : String) (uid : Option String) (now : ℤ) (read : ReadResult)
    (wOk : Bool) (s : BotState) (h1 : s.replies_cache ≠ []) (h2 : GoodRead read) :
    cursorOf u (get_next_reply uid now read wOk s).2
        = cursorOf u s + (if uid = some u then 1 else 0)
      ∧ (get_next_reply uid now read wOk s).2.replies_cache ≠ [] := by
  have hne := load_replies_ne_nil read wOk false now s h1 h2
  have hus := load_replies_user_states read wOk false now s
  have hcache := load_replies_cache_eq read wOk false now s
  have hie : ¬(load_replies read wOk false now s).replies.isEmpty = true := by
    simpa [List.isEmpty_iff] using hne
  cases uid with
  | none =>
      simp only [get_next_reply, if_neg hie]
      exact ⟨by simp [cursorOf, hus], by simpa [hcache] using hne⟩
  | some v =>
      simp only [get_next_reply, if_neg hie]
      refine ⟨?_, by simpa [hcache] using hne⟩
      by_cases hv : v = u
      · subst hv
        rw [if_pos rfl]
        simp only [cursorOf, hus, dictGet_dictSet_self]
        cases hd : dictGet s.user_states v <;> simp [hd]
      · rw [if_neg (by simpa using hv)]
        simp only [cursorOf, hus, dictGet_dictSet_ne _ _ _ _ hv]
        exact (Nat.add_zero _).symm

lemma usedCursor_user (u : String) (now : ℤ) (read : ReadResult) (wOk : Bool)
    (s : BotState) (h1 : s.replies_cache ≠ []) (h2 : GoodRead read) :
    usedCursor (some u) now read wOk s = some (cursorOf u s) := by
  have hne := load_replies_ne_nil read wOk false now s h1 h2
  have hus := load_replies_user_states read wOk false now s
  have hie : ¬(load_replies read wOk false now s).replies.isEmpty = true := by
    simpa [List.isEmpty_iff] using hne
  simp only [usedCursor, if_neg hie, hus, cursorOf]
  cases hd : dictGet s.user_states u <;> simp [hd]

lemma runOps_cursor_trace (u : String) (ops : List OpCall) (s : BotState)
    (h1 : s.replies_cache ≠ []) (hg : ∀ op ∈ ops, GoodRead op.read) :
    ((runOps ops s).1.filter (fun t => t.1 == some u)).map (fun t => t.2.1)
      = (List.range' (cursorOf u s) (countU u ops)).map some := by
  induction ops generalizing s with
  | nil => simp [runOps, countU]
  | cons op rest ih =>
      have hgop := hg op (by simp)
      have hstep := get_next_reply_step u op.uid op.now op.read op.writeOk s h1 hgop
      have htail := ih (get_next_reply op.uid op.now op.read op.writeOk s).2 hstep.2
        (fun o ho => hg o (by simp [ho]))
      by_cases hu : op.uid = some u
      · have hused : usedCursor op.uid op.now op.read op.writeOk s = some (cursorOf u s) := by
          rw [hu]
          exact usedCursor_user u op.now op.read op.writeOk s h1 hgop
        simp only [runOps]
        rw [List.filter_cons, if_pos (by simp [hu]), List.map_cons, hused, htail,
          hstep.1, if_pos hu]
        have hcount : countU u (op :: rest) = countU u rest + 1 := by
          simp [countU, List.filter_cons, hu]
        rw [hcount, List.range'_succ, List.map_cons]
      · simp only [runOps]
        rw [List.filter_cons, if_neg (by simp [hu]), htail, hstep.1, if_neg hu]
        have hcount : countU u (op :: rest) = countU u rest := by
          simp [countU, List.filter_cons, hu]
        rw [hcount]
        simp

lemma runOps_uid_map (ops : List OpCall) (s : BotState) :
    (runOps ops s).1.map (fun t => t.1) = ops.map OpCall.uid := by
  induction ops generalizing s with
  | nil => simp [runOps]
  | cons op rest ih => simp [runOps, ih]

lemma get_next_reply_fixed (u : String) (now : ℤ) (read : ReadResult) (wOk : Bool)
    (s : BotState) (tmpl : List String)
    (hne : tmpl ≠ []) (hc : s.replies_cache = tmpl) (hp : parsesTo read tmpl) :
    (get_next_reply (some u) now read wOk s).1
        = tmpl.getD (cursorOf u s % tmpl.length) ""
      ∧ (get_next_reply (some u) now read wOk s).2.replies_cache = tmpl := by
  have hrep := load_replies_of_parsesTo read wOk false now s hc hp
  have hus := load_replies_user_states read wOk false now s
  have hcache := load_replies_cache_eq read wOk false now s
  have hie : ¬(load_replies read wOk false now s).replies.isEmpty = true := by
    simp [List.isEmpty_iff, hrep, hne]
  constructor
  · simp only [get_next_reply, if_neg hie, hus]
    rw [hrep]
    simp only [cursorOf]
    cases hd : dictGet s.user_states u <;> simp [hd]
  · simp only [get_next_reply, if_neg hie]
    simpa using hcache.trans hrep

lemma runOps_fixed_pool (u : String) (tmpl : List String) (ops : List OpCall) (s : BotState)
    (hne : tmpl ≠ []) (hc : s.replies_cache = tmpl)
    (hops : ∀ op ∈ ops, op.uid = some u ∧ parsesTo op.read tmpl) :
    (runOps ops s).1.map (fun t => t.2.2)
      = (List.range' (cursorOf u s) ops.length).map (fun j => tmpl.getD (j % tmpl.length) "") := by
  induction ops generalizing s with
  | nil => simp [runOps]
  | cons op rest ih =>
      obtain ⟨huid, hp⟩ := hops op (by simp)
      have hg : GoodRead op.read := parsesTo_goodRead hne hp
      have h1 : s.replies_cache ≠ [] := hc ▸ hne
      have hstep := get_next_reply_step u op.uid op.now op.read op.writeOk s h1 hg
      have hfix := get_next_reply_fixed u op.now op.read op.writeOk s tmpl hne hc hp
      have hfix1 : (get_next_reply op.uid op.now op.read op.writeOk s).1
          = tmpl.getD (cursorOf u s % tmpl.length) "" := by rw [huid]; exact hfix.1
      have hfix2 : (get_next_reply op.uid op.now op.read op.writeOk s).2.replies_cache
          = tmpl := by rw [huid]; exact hfix.2
      simp only [runOps, List.map_cons, List.length_cons]
      rw [List.range'_succ, List.map_cons, hfix1,
        ih (get_next_reply op.uid op.now op.read op.writeOk s).2 hfix2
          (fun o ho => hops o (by simp [ho])),
        hstep.1, if_pos huid]

/-! ### Claim theorems -/

/-- C3: `send_message` truncates every over-long text to exactly 2000
characters with the `"..."` marker as a suffix, sends shorter texts
unchanged, and the outbound body is exactly the truncation of the
input. -/
theorem send_truncation (tok text : String) (net : NetOutcome) (htok : tok ≠ "") :
    (send_message (some tok) text net).requested = some (truncate text)
  ∧ (text.length > 2000 →
      (truncate text).length = 2000 ∧ "...".data <:+ (truncate text).data)
  ∧ (text.length ≤ 2000 → truncate text = text) := by
  refine ⟨?_, ?_, ?_⟩
  · have hf : tokenFalsy (some tok) = false := by
      simp [tokenFalsy, htok]
    simp only [send_message, hf]
    cases net <;> rfl
  · intro h
    unfold truncate
    rw [if_pos h]
    constructor
    · rw [String.length_append, String.length_mk, List.length_take]
      have hd : text.data.length = text.length := rfl
      have hmin : (1997 : Nat) ⊓ text.data.length = 1997 :=
        Nat.min_eq_left (by omega)
      rw [hmin]
      rfl
    · rw [String.data_append]
      exact List.suffix_append _ _
  · intro h
    unfold truncate
    rw [if_neg (by omega)]

/-- C3 witness: a 2500-character input is sent as exactly 2000
characters ending in the truncation marker. -/
theorem send_truncation_witness :
    (String.mk (List.replicate 2500 'a')).length > 2000
  ∧ (truncate (String.mk (List.replicate 2500 'a'))).length = 2000 := by
  have hlen : (String.mk (List.replicate 2500 'a')).length > 2000 := by
    rw [String.length_mk, List.length_replicate]
    norm_num
  exact ⟨hlen,
    ((send_truncation "t" (String.mk (List.replicate 2500 'a'))
      (NetOutcome.response 200) (by decide)).2.1 hlen).1⟩

/-- C5: `send_message` always returns a boolean: with a falsy token it
returns `false` without issuing a request; with a real token it issues
exactly one request with the truncated body and returns `true` if and
only if the remote status is 200 — every timeout, transport error,
other exception, or non-200 status yields `false` (the embedding is a
total function, so no exception propagates). -/
theorem send_outcome_boolean (token : Option String) (text : String) (net : NetOutcome) :
    (tokenFalsy token = true → send_message token text net = ⟨none, false⟩)
  ∧ (tokenFalsy token = false →
      (send_message token text net).requested = some (truncate text)
      ∧ ((send_message token text net).ok = true ↔ net = NetOutcome.response 200)) := by
  constructor
  · intro h
    simp only [send_message, h]
    rfl
  · intro h
    simp only [send_message, h]
    cases net with
    | response code =>
        refine ⟨rfl, ?_⟩
        simp
    | timeout => exact ⟨rfl, by simp⟩
    | requestError => exact ⟨rfl, by simp⟩
    | otherError => exact ⟨rfl, by simp⟩

/-- C5 witness: with a configured token, a timeout yields `ok = false`
and a 200 response yields `ok = true`; with no token nothing is sent. -/
theorem send_outcome_boolean_witness :
    tokenFalsy (some "tok") = false
  ∧ ((send_message (some "tok") "hi" NetOutcome.timeout).ok = true
      ↔ NetOutcome.timeout = NetOutcome.response 200)
  ∧ send_message none "hi" NetOutcome.timeout = ⟨none, false⟩ :=
  ⟨rfl,
   ((send_outcome_boolean (some "tok") "hi" NetOutcome.timeout).2 rfl).2,
   (send_outcome_boolean none "hi" NetOutcome.timeout).1 rfl⟩

/-- C6: a forced reload returns exactly the store's lines trimmed with
blank lines dropped and order preserved (`parseLines`), and a second
forced reload of the unchanged store returns the identical list and
leaves the identical cache. -/
theorem forced_reload_idempotent (lines : List String) (wOk1 wOk2 : Bool)
    (now1 now2 : ℤ) (s : BotState) :
    (load_replies (ReadResult.ok lines) wOk1 true now1 s).replies = parseLines lines
  ∧ (load_replies (ReadResult.ok lines) wOk2 true now2
        (load_replies (ReadResult.ok lines) wOk1 true now1 s).state).replies
      = (load_replies (ReadResult.ok lines) wOk1 true now1 s).replies
  ∧ (load_replies (ReadResult.ok lines) wOk2 true now2
        (load_replies (ReadResult.ok lines) wOk1 true now1 s).state).state.replies_cache
      = (load_replies (ReadResult.ok lines) wOk1 true now1 s).state.replies_cache := by
  refine ⟨?_, ?_, ?_⟩ <;> simp [load_replies]

/-- C2 counterexample: a backing store that exists but contains only a
blank line leaves the cache empty after a forced load — the default set
is not substituted, nothing is written back, and the claimed "cache is
never empty after a load" fails. -/
theorem load_empty_source_leaves_cache_empty :
    (load_replies (ReadResult.ok ["\n"]) true true 0
        { initBotState with replies_cache := ["old"] }).state.replies_cache = []
  ∧ (load_replies (ReadResult.ok ["\n"]) true true 0
        { initBotState with replies_cache := ["old"] }).written = none
  ∧ default_replies ≠ [] := by
  decide

/-- C2 amended: only when the backing source is missing
(`FileNotFoundError`) does `load_replies` substitute the built-in
default set of 10 non-empty strings and attempt to persist it (the
cache receives the defaults even if the write fails); a present but
blank source instead yields an empty cache. -/
theorem default_seed_on_missing_source (wOk force : Bool) (now : ℤ) (s : BotState)
    (h : force = true ∨ now - s.last_reply_reload > 30) :
    (load_replies ReadResult.notFound wOk force now s).replies = default_replies
  ∧ (load_replies ReadResult.notFound wOk force now s).state.replies_cache = default_replies
  ∧ default_replies.length = 10
  ∧ (∀ r ∈ default_replies, r ≠ "")
  ∧ (load_replies ReadResult.notFound wOk force now s).written
      = (if wOk then some default_replies else none) := by
  unfold load_replies
  rw [if_pos h]
  exact ⟨rfl, rfl, by decide, by decide, rfl⟩

/-- C2 amended witness: a forced load from a missing store installs the
default replies. -/
theorem default_seed_on_missing_source_witness :
    (true = true ∨ (0 : ℤ) - initBotState.last_reply_reload > 30)
  ∧ (load_replies ReadResult.notFound true true 0 initBotState).state.replies_cache
      = default_replies :=
  ⟨Or.inl rfl,
   (default_seed_on_missing_source true true 0 initBotState (Or.inl rfl)).2.1⟩

/-- C9: a generic read failure (not file-absence) replaces the cache by
the single-element fallback list — one fixed non-empty string, not the
10-entry default set — and every subsequent `get_next_reply` while the
store keeps failing returns that single string. -/
theorem read_error_singleton_fallback (wOk force : Bool) (now : ℤ) (s : BotState)
    (h : force = true ∨ now - s.last_reply_reload > 30) :
    (load_replies ReadResult.readErr wOk force now s).state.replies_cache
        = [read_error_fallback]
  ∧ read_error_fallback ≠ ""
  ∧ [read_error_fallback] ≠ default_replies
  ∧ (∀ (uid : Option String) (now2 : ℤ) (wOk2 : Bool) (s2 : BotState),
      s2.replies_cache = [read_error_fallback] →
      (get_next_reply uid now2 ReadResult.readErr wOk2 s2).1 = read_error_fallback) := by
  refine ⟨?_, by decide, by decide, ?_⟩
  · unfold load_replies
    rw [if_pos h]
  · intro uid now2 wOk2 s2 hs2
    have hrep : (load_replies ReadResult.readErr wOk2 false now2 s2).replies
        = [read_error_fallback] := by
      unfold load_replies
      split
      · rfl
      · simpa using hs2
    have hie : ¬(load_replies ReadResult.readErr wOk2 false now2 s2).replies.isEmpty = true := by
      simp [hrep]
    cases uid with
    | some u =>
        simp only [get_next_reply, if_neg hie, hrep]
        simp [Nat.mod_one]
    | none =>
        simp only [get_next_reply, if_neg hie, hrep]
        simp [Nat.mod_one]

/-- C9 witness: after a stale-cache read failure the cache is the
singleton fallback and the next reply is that string. -/
theorem read_error_singleton_fallback_witness :
    (true = true ∨ (0 : ℤ) - initBotState.last_reply_reload > 30)
  ∧ (load_replies ReadResult.readErr true true 0 initBotState).state.replies_cache
      = [read_error_fallback] :=
  ⟨Or.inl rfl,
   (read_error_singleton_fallback true true 0 initBotState (Or.inl rfl)).1⟩

/-- C4 counterexample: `cleanup_inactive_users` does not return the
count of removed entries — the Python function has no return statement
(it returns `None`, here `none`), even when it removes one stale entry
and logs the count 1. -/
theorem sweep_returns_no_count :
    (cleanup_inactive_users 5000
        { initBotState with user_states := [("u", ⟨5, 0⟩)] }).2 = none
  ∧ cleanup_removed_count 5000 { initBotState with user_states := [("u", ⟨5, 0⟩)] } = 1
  ∧ (cleanup_inactive_users 5000
        { initBotState with user_states := [("u", ⟨5, 0⟩)] }).2
      ≠ some (cleanup_removed_count 5000
          { initBotState with user_states := [("u", ⟨5, 0⟩)] }) := by
  decide

/-- C4 amended: the sweep removes exactly the entries whose
`last_active` is more than 3600 s old, logs (but does not return) their
count — the logged count plus the retained entries add up to the
original table — and an entry is retained before `last_active + 3600`
and gone after a sweep strictly past `last_active + 3600`. -/
theorem sweep_evicts_exactly_stale (now : ℤ) (s : BotState) :
    (cleanup_inactive_users now s).2 = none
  ∧ (∀ p, p ∈ (cleanup_inactive_users now s).1.user_states
        ↔ p ∈ s.user_states ∧ ¬(now - p.2.last_active > 3600))
  ∧ cleanup_removed_count now s + (cleanup_inactive_users now s).1.user_states.length
      = s.user_states.length
  ∧ (∀ u e, dictGet s.user_states u = some e →
        (now < e.last_active + 3600 →
          dictGet (cleanup_inactive_users now s).1.user_states u = some e)
      ∧ ((s.user_states.map Prod.fst).Nodup → now > e.last_active + 3600 →
          dictGet (cleanup_inactive_users now s).1.user_states u = none)) := by
  refine ⟨rfl, ?_, ?_, ?_⟩
  · intro p
    simp [cleanup_inactive_users, List.mem_filter, isStale]
  · have hsplit := List.length_eq_length_filter_add
      (l := s.user_states) (fun p => isStale now p.2)
    simpa [cleanup_inactive_users, cleanup_removed_count] using hsplit.symm
  · intro u e hget
    constructor
    · intro hlt
      refine dictGet_filter_pos _ hget ?_
      simp only [isStale, Bool.not_eq_true']
      simp only [decide_eq_false_iff_not]
      omega
    · intro hnd hgt
      refine dictGet_filter_neg _ hnd hget ?_
      simp only [isStale, Bool.not_eq_false', decide_eq_true_eq]
      omega

/-- C4 amended witness: a sweep run 5000 s after an entry's last
activity (past the 3600 s threshold) evicts that entry. -/
theorem sweep_evicts_exactly_stale_witness :
    dictGet [("u", (⟨2, 0⟩ : UserEntry))] "u" = some ⟨2, 0⟩
  ∧ ([("u", (⟨2, 0⟩ : UserEntry))].map Prod.fst).Nodup
  ∧ ((5000 : ℤ) > 0 + 3600)
  ∧ dictGet (cleanup_inactive_users 5000
      { initBotState with user_states := [("u", ⟨2, 0⟩)] }).1.user_states "u" = none :=
  ⟨by decide, by decide, by decide,
   ((sweep_evicts_exactly_stale 5000
       { initBotState with user_states := [("u", ⟨2, 0⟩)] }).2.2.2
     "u" ⟨2, 0⟩ (by decide)).2 (by decide) (by decide)⟩

/-- C10: the sweep touches nothing but the evicted entries: the global
cursor, the cached reply list, and the last-reload timestamp are
unchanged, retained entries are a subset of the original table, and
every non-stale entry keeps its exact cursor and timestamp. -/
theorem sweep_frame (now : ℤ) (s : BotState) :
    (cleanup_inactive_users now s).1.reply_index = s.reply_index
  ∧ (cleanup_inactive_users now s).1.replies_cache = s.replies_cache
  ∧ (cleanup_inactive_users now s).1.last_reply_reload = s.last_reply_reload
  ∧ (∀ p ∈ (cleanup_inactive_users now s).1.user_states, p ∈ s.user_states)
  ∧ (∀ u e, dictGet s.user_states u = some e → ¬(now - e.last_active > 3600) →
      dictGet (cleanup_inactive_users now s).1.user_states u = some e) := by
  refine ⟨rfl, rfl, rfl, ?_, ?_⟩
  · intro p hp
    exact (List.mem_filter.mp hp).1
  · intro u e hget hkeep
    exact dictGet_filter_pos _ hget (by simp [isStale, hkeep])

/-- C10 witness: a fresh entry survives a sweep with cursor and
timestamp intact. -/
theorem sweep_frame_witness :
    dictGet [("u", (⟨3, 100⟩ : UserEntry))] "u" = some ⟨3, 100⟩
  ∧ ¬((200 : ℤ) - 100 > 3600)
  ∧ dictGet (cleanup_inactive_users 200
      { initBotState with user_states := [("u", ⟨3, 100⟩)] }).1.user_states "u"
      = some ⟨3, 100⟩ :=
  ⟨by decide, by decide,
   (sweep_frame 200 { initBotState with user_states := [("u", ⟨3, 100⟩)] }).2.2.2.2
     "u" ⟨3, 100⟩ (by decide) (by decide)⟩

/-- C7: `get_next_reply` returns a non-empty string for every sender
and every pool state whose cached elements are non-empty (vacuously
including the empty cache, where the hardcoded fallback is returned),
and the cache keeps that property across the call — so a dispatched
reply body is never empty even when both the read and the default-seed
write failed. -/
theorem reply_always_nonempty (uid : Option String) (now : ℤ) (read : ReadResult)
    (wOk : Bool) (s : BotState) (h : ∀ r ∈ s.replies_cache, r ≠ "") :
    (get_next_reply uid now read wOk s).1 ≠ ""
  ∧ (∀ r ∈ (get_next_reply uid now read wOk s).2.replies_cache, r ≠ "") := by
  have helems := load_replies_elems_ne read wOk false now s h
  have hcache := load_replies_cache_eq read wOk false now s
  by_cases hie : (load_replies read wOk false now s).replies.isEmpty = true
  · constructor
    · simp only [get_next_reply, if_pos hie]
      decide
    · simp only [get_next_reply, if_pos hie]
      intro r hr
      exact helems r (by rwa [hcache] at hr)
  · have hne : (load_replies read wOk false now s).replies ≠ [] := by
      simpa [List.isEmpty_iff] using hie
    cases uid with
    | some u =>
        constructor
        · simp only [get_next_reply, if_neg hie]
          exact helems _ (getD_mod_mem hne _)
        · simp only [get_next_reply, if_neg hie]
          intro r hr
          exact helems r (by rwa [hcache] at hr)
    | none =>
        constructor
        · simp only [get_next_reply, if_neg hie]
          exact helems _ (getD_mod_mem hne _)
        · simp only [get_next_reply, if_neg hie]
          intro r hr
          exact helems r (by rwa [hcache] at hr)

/-- C7 witness: with an empty cache and a fresh (non-reloading) call,
the hardcoded fallback is returned and it is non-empty. -/
theorem reply_always_nonempty_witness :
    (∀ r ∈ initBotState.replies_cache, r ≠ "")
  ∧ (get_next_reply (some "u1") 0 ReadResult.readErr false initBotState).1 ≠ "" :=
  ⟨by simp [initBotState],
   (reply_always_nonempty (some "u1") 0 ReadResult.readErr false initBotState
     (by simp [initBotState])).1⟩

/-- C1: for every non-empty pool `tmpl` held fixed across the calls and
every sender `u` with no prior entry, a sequence of `k` `get_next_reply`
calls for `u` uses the pre-modulo cursor values `0, 1, …, k-1` in order
and returns `tmpl[i % n]` at the i-th call. -/
theorem rotation_sequence_per_sender (tmpl : List String) (u : String)
    (ops : List OpCall) (s : BotState)
    (hne : tmpl ≠ []) (hc : s.replies_cache = tmpl)
    (hu : dictGet s.user_states u = none)
    (hops : ∀ op ∈ ops, op.uid = some u ∧ parsesTo op.read tmpl) :
    (runOps ops s).1.map (fun t => t.2.2)
        = (List.range ops.length).map (fun i => tmpl.getD (i % tmpl.length) "")
  ∧ (runOps ops s).1.map (fun t => t.2.1)
        = (List.range ops.length).map some := by
  have hcur0 : cursorOf u s = 0 := by simp [cursorOf, hu]
  constructor
  · have hfix := runOps_fixed_pool u tmpl ops s hne hc hops
    rwa [hcur0, ← List.range_eq_range'] at hfix
  · have hg : ∀ op ∈ ops, GoodRead op.read :=
      fun op hop => parsesTo_goodRead hne (hops op hop).2
    have h1 : s.replies_cache ≠ [] := hc ▸ hne
    have htrace := runOps_cursor_trace u ops s h1 hg
    have hall : ∀ t ∈ (runOps ops s).1, (t.1 == some u) = true := by
      intro t ht
      have hmem : t.1 ∈ (runOps ops s).1.map (fun t => t.1) :=
        List.mem_map_of_mem _ ht
      rw [runOps_uid_map] at hmem
      obtain ⟨op, hop, heq⟩ := List.mem_map.mp hmem
      rw [← heq, (hops op hop).1]
      simp
    rw [List.filter_eq_self.mpr hall] at htrace
    have hcount : countU u ops = ops.length := by
      unfold countU
      rw [List.filter_eq_self.mpr (fun op hop => by rw [(hops op hop).1]; simp)]
    rw [htrace, hcur0, hcount, ← List.range_eq_range']

/-- C1 witness: sender "u1" with pool ["A","B","C"] gets "A", "B", "C",
then wraps around to "A" on the fourth message. -/
theorem rotation_sequence_per_sender_witness :
    (runOps [⟨some "u1", 0, ReadResult.ok ["A", "B", "C"], true⟩,
             ⟨some "u1", 1, ReadResult.ok ["A", "B", "C"], true⟩,
             ⟨some "u1", 2, ReadResult.ok ["A", "B", "C"], true⟩,
             ⟨some "u1", 3, ReadResult.ok ["A", "B", "C"], true⟩]
        { initBotState with replies_cache := ["A", "B", "C"] }).1.map (fun t => t.2.2)
      = ["A", "B", "C", "A"] := by
  have h := rotation_sequence_per_sender ["A", "B", "C"] "u1"
      [⟨some "u1", 0, ReadResult.ok ["A", "B", "C"], true⟩,
       ⟨some "u1", 1, ReadResult.ok ["A", "B", "C"], true⟩,
       ⟨some "u1", 2, ReadResult.ok ["A", "B", "C"], true⟩,
       ⟨some "u1", 3, ReadResult.ok ["A", "B", "C"], true⟩]
      { initBotState with replies_cache := ["A", "B", "C"] }
      (by decide) rfl rfl (by decide)
  exact h.1.trans (by decide)

/-- C8: in every serialization of atomic `get_next_reply` calls (the
whole method body runs under the table lock, so any concurrent
execution is equivalent to some serialization), the `N` calls for a
fresh sender `u` — arbitrarily interleaved with calls for other senders
and global-cursor calls — observe the pre-modulo cursor values
`0, 1, …, N-1` in order: `N` distinct values covering `{0 … N-1}`
exactly once each, with no lost updates. -/
theorem concurrent_cursor_distinct (u : String) (ops : List OpCall) (s : BotState)
    (h1 : s.replies_cache ≠ []) (hu : dictGet s.user_states u = none)
    (hg : ∀ op ∈ ops, GoodRead op.read) :
    ((runOps ops s).1.filter (fun t => t.1 == some u)).map (fun t => t.2.1)
      = (List.range (countU u ops)).map some := by
  have hcur0 : cursorOf u s = 0 := by simp [cursorOf, hu]
  have htrace := runOps_cursor_trace u ops s h1 hg
  rwa [hcur0, ← List.range_eq_range'] at htrace

/-- C8 witness: a schedule interleaving three calls for "u1" with a
call for "u2" and a global-cursor call still hands "u1" the cursor
values 0, 1, 2. -/
theorem concurrent_cursor_distinct_witness :
    ((runOps [⟨some "u1", 0, ReadResult.readErr, true⟩,
              ⟨some "u2", 1, ReadResult.readErr, true⟩,
              ⟨some "u1", 2, ReadResult.readErr, true⟩,
              ⟨none, 3, ReadResult.readErr, true⟩,
              ⟨some "u1", 4, ReadResult.readErr, true⟩]
        { initBotState with replies_cache := ["A"] }).1.filter
          (fun t => t.1 == some "u1")).map (fun t => t.2.1)
      = [some 0, some 1, some 2] := by
  have h := concurrent_cursor_distinct "u1"
      [⟨some "u1", 0, ReadResult.readErr, true⟩,
       ⟨some "u2", 1, ReadResult.readErr, true⟩,
       ⟨some "u1", 2, ReadResult.readErr, true⟩,
       ⟨none, 3, ReadResult.readErr, true⟩,
       ⟨some "u1", 4, ReadResult.readErr, true⟩]
      { initBotState with replies_cache := ["A"] }
      (by decide) rfl
      (by
        intro op hop lines hl
        fin_cases hop <;> exact absurd hl (by simp))
  exact h.trans (by decide)

end AutoReplyBot
